import Mathlib

/-!
# Verification of the Healthcare Data Warehouse privacy engine

A shallow embedding of `src/privacy_engine.py` (class `PrivacyEngine`).

Modelling conventions:
* A dataframe cell (`Val`) is a string, an integer, or null.  `Val.vNull`
  models both a SQL `NULL`/Python `None` and a pandas `NaN` cell in an
  object-dtype column: such nulls compare equal to one another when used as
  dictionary keys (object-dtype `None` semantics) and are dropped by
  `groupby` and `nunique` (pandas "na" semantics).
* Python floats are modelled as exact rationals (`ℚ`).
* `pandas.DataFrame` is a column-name list plus a list of rows; a dataframe
  is well formed (`DFWF`) when every row has one cell per column.
* `pandas.Series.min()/max()` of an empty series yields the float `NaN`,
  modelled by a dedicated scalar (`PdScalar.nan`) distinct from `None`
  (`PdScalar.null`) so that reports can be compared against both.
* Exceptions are modelled by `Except PyErr`.  `PyErr` lists both the
  exception kinds the Python code can actually raise (`zeroDivisionError`,
  `unboundLocalError`) and the dedicated error kinds named by the design
  documentation (`emptyDistributionError`, `unknownMethodError`,
  `invalidBudgetError`) so that statements about either are expressible.
* Mutation of the caller's dataframe (the `df['_group_size'] = ...`
  assignment in `enforce_k_anonymity`) is modelled by explicit state
  passing: the function returns the caller's dataframe as it is after the
  call together with the result.
* Timestamps (`datetime.now()`) are dropped from budget entries and audit
  reports; no claim concerns them.
-/

/-- A dataframe cell: a string, an integer, or a null (None/NaN). -/
inductive Val where
  | vStr (s : String)
  | vNat (n : Nat)
  | vNull
deriving DecidableEq

/-- Result of a pandas aggregation that may be the float `NaN` (empty
series) and that the specification wants to be `None`; `null` and `nan`
are distinct values. -/
inductive PdScalar where
  | null
  | nan
  | nat (n : Nat)
deriving DecidableEq

/-- A possibly-`NaN` rational (pandas `mean` of a possibly empty series). -/
inductive PdRat where
  | nan
  | val (q : ℚ)
deriving DecidableEq

/-- Python exception kinds relevant to the engine: the two the code can
raise plus the three dedicated kinds named by the design documentation
(never raised by the code, present so claims about them are statable). -/
inductive PyErr where
  | zeroDivisionError
  | unboundLocalError
  | emptyDistributionError
  | unknownMethodError
  | invalidBudgetError
deriving DecidableEq

/-- A pandas dataframe: column names plus rows of cells. -/
structure DataFrame where
  cols : List String
  rows : List (List Val)
deriving DecidableEq

/-- Every row has exactly one cell per column. -/
def DFWF (df : DataFrame) : Prop :=
  ∀ r ∈ df.rows, r.length = df.cols.length

instance (df : DataFrame) : Decidable (DFWF df) :=
  inferInstanceAs (Decidable (∀ r ∈ df.rows, r.length = df.cols.length))

/-- Position of a column name in the schema (first occurrence). -/
def colIdx : List String → String → Option Nat
  | [], _ => none
  | c0 :: rest, c => if c0 = c then some 0 else (colIdx rest c).map (· + 1)

/-- Read the cell of `row` in column `c` (null when absent). -/
def getCell (cols : List String) (row : List Val) (c : String) : Val :=
  match colIdx cols c with
  | some i => row.getD i Val.vNull
  | none => Val.vNull

/-- Overwrite the cell of `row` in column `c` (no-op when absent). -/
def setCell (cols : List String) (row : List Val) (c : String) (v : Val) : List Val :=
  match colIdx cols c with
  | some i => row.set i v
  | none => row

/-- The tuple of quasi-identifier values of a row (the `groupby` key). -/
def rowKey (cols : List String) (qis : List String) (row : List Val) : List Val :=
  qis.map (getCell cols row)

/-- Whether a `groupby` key is free of nulls; pandas drops rows whose key
contains a null (`dropna=True`, the default). -/
def keyNonNull (key : List Val) : Bool :=
  key.all fun v => decide (v ≠ Val.vNull)

/-- Number of records of the dataset whose quasi-identifier tuple equals
`key` (nulls compare equal, so this is the mathematical equivalence-class
size, nulls included). -/
def keySize (df : DataFrame) (qis : List String) (key : List Val) : Nat :=
  (df.rows.filter fun r => decide (rowKey df.cols qis r = key)).length

section Tally

variable {α : Type} [DecidableEq α]

/-- First count associated with `a` in an association list of counts. -/
def cget : List (α × Nat) → α → Nat
  | [], _ => 0
  | p :: rest, a => if p.1 = a then p.2 else cget rest a

/-- Total of all counts. -/
def ctotal (d : List (α × Nat)) : Nat :=
  (d.map (·.2)).sum

/-- The keys of an association list of counts. -/
def keysOf (d : List (α × Nat)) : List α :=
  d.map (·.1)

/-- Occurrences of `a` in a list. -/
def ccount (xs : List α) (a : α) : Nat :=
  (xs.filter fun x => decide (x = a)).length

/-- Add one observation of `a` to a count table: bump the first entry for
`a`, or append a fresh entry `(a, 1)`.  This is how both a Python
`Counter` and a first-seen `groupby` accumulate. -/
def bump (acc : List (α × Nat)) (a : α) : List (α × Nat) :=
  match acc with
  | [] => [(a, 1)]
  | p :: rest => if p.1 = a then (p.1, p.2 + 1) :: rest else p :: bump rest a

/-- Count table of a list of observations, keys in first-seen order
(`collections.Counter`). -/
def tally (xs : List α) : List (α × Nat) :=
  xs.foldl bump []

end Tally

/-- `collections.Counter` over dataframe cells. -/
def counterOf (vs : List Val) : List (Val × Nat) :=
  tally vs

section Sorting

variable {α : Type}

/-- Insert into a list immediately before the first element it is `le` to. -/
def insertLe (le : α → α → Bool) (a : α) : List α → List α
  | [] => [a]
  | b :: rest => if le a b then a :: b :: rest else b :: insertLe le a rest

/-- Insertion sort. -/
def sortLe (le : α → α → Bool) : List α → List α
  | [] => []
  | a :: rest => insertLe le a (sortLe le rest)

end Sorting

/-- Order on cells used for sorting `groupby` keys: pandas only ever sorts
homogeneous keys (strings by lexicographic order, integers numerically);
the cross-constructor cases are arbitrary tie-breaks never exercised by
homogeneous data. -/
def valLe : Val → Val → Bool
  | Val.vNull, _ => true
  | Val.vNat _, Val.vNull => false
  | Val.vNat a, Val.vNat b => decide (a ≤ b)
  | Val.vNat _, Val.vStr _ => true
  | Val.vStr _, Val.vNull => false
  | Val.vStr _, Val.vNat _ => false
  | Val.vStr a, Val.vStr b => match compare a b with
    | Ordering.gt => false
    | _ => true

/-- Lexicographic order on `groupby` key tuples. -/
def keyLe : List Val → List Val → Bool
  | [], _ => true
  | _ :: _, [] => false
  | x :: xs, y :: ys => if x = y then keyLe xs ys else valLe x y

/-- The `groupby` keys of the dataset's rows, null-free ones only, one
per row, in row order. -/
def nnKeys (df : DataFrame) (qis : List String) : List (List Val) :=
  (df.rows.map (rowKey df.cols qis)).filter keyNonNull

/-- `df.groupby(qis).size()`: rows with a null in the key are dropped,
sizes are accumulated per distinct key, and the resulting `(key, size)`
table is sorted by key (`sort=True`, the pandas default). -/
def grouped (df : DataFrame) (qis : List String) : List (List Val × Nat) :=
  sortLe (fun p q => keyLe p.1 q.1) (tally (nnKeys df qis))

/-- The sub-dataframe of one `groupby` group: the rows carrying `key`. -/
def groupRows (df : DataFrame) (qis : List String) (key : List Val) : List (List Val) :=
  df.rows.filter fun r => decide (rowKey df.cols qis r = key)

/-- Smallest element of a list of naturals, `none` when empty. -/
def minNat? : List Nat → Option Nat
  | [] => none
  | n :: rest =>
    match minNat? rest with
    | none => some n
    | some m => some (Nat.min n m)

/-- Largest element of a list of naturals, `none` when empty. -/
def maxNat? : List Nat → Option Nat
  | [] => none
  | n :: rest =>
    match maxNat? rest with
    | none => some n
    | some m => some (Nat.max n m)

/-- `max(qs)` over a list of rationals, `d` when empty. -/
def maxQD (d : ℚ) : List ℚ → ℚ
  | [] => d
  | q :: rest =>
    match rest with
    | [] => q
    | _ => max q (maxQD d rest)

/-- `pandas.Series.min()`: `NaN` on an empty series. -/
def pdMin (ns : List Nat) : PdScalar :=
  match minNat? ns with
  | none => PdScalar.nan
  | some m => PdScalar.nat m

/-- `pandas.Series.max()`: `NaN` on an empty series. -/
def pdMax (ns : List Nat) : PdScalar :=
  match maxNat? ns with
  | none => PdScalar.nan
  | some m => PdScalar.nat m

/-- `pandas.Series.mean()`: `NaN` on an empty series. -/
def pdMean (ns : List Nat) : PdRat :=
  match ns with
  | [] => PdRat.nan
  | _ => PdRat.val (((ns.map fun n => (n : ℚ)).sum) / (ns.length : ℚ))

/-- Return value of `PrivacyEngine.check_k_anonymity`. -/
structure KResult where
  satisfies_k_anonymity : Bool
  k_value : Nat
  total_groups : Nat
  violating_groups : Nat
  smallest_group_size : PdScalar
  largest_group_size : PdScalar
  average_group_size : PdRat
  records_at_risk : Nat
deriving DecidableEq

/-- `PrivacyEngine.check_k_anonymity(df, quasi_identifiers)` with the
engine's `k`: group by the quasi-identifiers, count sizes, flag groups of
size `< k`. -/
def check_k_anonymity (df : DataFrame) (qis : List String) (k : Nat) : KResult :=
  let g := grouped df qis
  let violations := g.filter fun p => decide (p.2 < k)
  { satisfies_k_anonymity := decide (violations.length = 0)
    k_value := k
    total_groups := g.length
    violating_groups := violations.length
    smallest_group_size := pdMin (g.map (·.2))
    largest_group_size := pdMax (g.map (·.2))
    average_group_size := pdMean (g.map (·.2))
    records_at_risk := if 0 < violations.length then ((violations.map (·.2)).sum) else 0 }

/-- The per-row value pandas assigns by
`df.groupby(qis)[qis[0]].transform('count')`: the row's group size when
its key is null-free, else `NaN` (a row with a null key belongs to no
group). -/
def gsVal (df : DataFrame) (qis : List String) (row : List Val) : Val :=
  if keyNonNull (rowKey df.cols qis row) then
    Val.vNat (keySize df qis (rowKey df.cols qis row))
  else Val.vNull

/-- `df['_group_size'] = df.groupby(qis)[qis[0]].transform('count')`: the
caller's dataframe after the in-place column assignment (the dataframe is
assumed not to already carry a `_group_size` column). -/
def addGroupSize (df : DataFrame) (qis : List String) : DataFrame :=
  { cols := df.cols ++ ["_group_size"]
    rows := df.rows.map fun r => r ++ [gsVal df qis r] }

/-- `df.drop(c, axis=1)`: remove a column and the matching cell of every
row. -/
def dropCol (df : DataFrame) (c : String) : DataFrame :=
  match colIdx df.cols c with
  | some i => { cols := df.cols.eraseIdx i, rows := df.rows.map (·.eraseIdx i) }
  | none => df

/-- `_group_size >= k` on a row of the size-annotated dataframe; a `NaN`
size compares false. -/
def gsGE (cols : List String) (row : List Val) (k : Nat) : Bool :=
  match getCell cols row "_group_size" with
  | Val.vNat n => decide (k ≤ n)
  | _ => false

/-- `_group_size < k` on a row of the size-annotated dataframe; a `NaN`
size compares false. -/
def gsLT (cols : List String) (row : List Val) (k : Nat) : Bool :=
  match getCell cols row "_group_size" with
  | Val.vNat n => decide (n < k)
  | _ => false

/-- The fixed fine-to-coarse age-band mapping of the `generalize` method:
the three recognised bands become `Adult (18-60)`, anything else becomes
`Senior (60+)`. -/
def genAge (v : Val) : Val :=
  if v = Val.vStr "18-30" ∨ v = Val.vStr "31-45" ∨ v = Val.vStr "46-60" then
    Val.vStr "Adult (18-60)"
  else Val.vStr "Senior (60+)"

/-- `PrivacyEngine.enforce_k_anonymity(df, quasi_identifiers, method)`.
Returns the caller's dataframe as it is after the call (the in-place
`_group_size` assignment happens before any branch) together with the
result.  `suppress` keeps rows of groups of size `≥ k` — and divides by
`len(df)` for its log line, a `ZeroDivisionError` on an empty dataframe.
`generalize` rewrites `age_group` of rows in undersized groups when
`age_group` is a quasi-identifier, else falls back to suppression
(without the log-line division).  Any other method leaves `df_anonymous`
unassigned, so the final `drop` raises `UnboundLocalError`. -/
def enforce_k_anonymity (df : DataFrame) (qis : List String) (k : Nat)
    (method : String) : DataFrame × Except PyErr DataFrame :=
  (addGroupSize df qis,
    (if method = "suppress" then
      if df.rows.length = 0 then Except.error PyErr.zeroDivisionError
      else
        Except.ok { cols := (addGroupSize df qis).cols
                    rows := (addGroupSize df qis).rows.filter fun r =>
                      gsGE (addGroupSize df qis).cols r k }
    else if method = "generalize" then
      if "age_group" ∈ qis then
        Except.ok { cols := (addGroupSize df qis).cols
                    rows := (addGroupSize df qis).rows.map fun r =>
                      if gsLT (addGroupSize df qis).cols r k then
                        setCell (addGroupSize df qis).cols r "age_group"
                          (genAge (getCell (addGroupSize df qis).cols r "age_group"))
                      else r }
      else
        Except.ok { cols := (addGroupSize df qis).cols
                    rows := (addGroupSize df qis).rows.filter fun r =>
                      gsGE (addGroupSize df qis).cols r k }
    else Except.error PyErr.unboundLocalError).map fun d => dropCol d "_group_size")

/-- `pandas.Series.nunique()`: distinct non-null values. -/
def nuniq (vs : List Val) : Nat :=
  (vs.filter fun v => decide (v ≠ Val.vNull)).dedup.length

/-- Return value of `PrivacyEngine.check_l_diversity`. -/
structure LResult where
  satisfies_l_diversity : Bool
  l_value : Nat
  sensitive_attribute : String
  total_groups : Nat
  violating_groups : Nat
  min_diversity : PdScalar
  max_diversity : PdScalar
  avg_diversity : PdRat
deriving DecidableEq

/-- `PrivacyEngine.check_l_diversity(df, quasi_identifiers,
sensitive_attribute)` with the engine's `l`: distinct sensitive values per
group, violation below `l`. -/
def check_l_diversity (df : DataFrame) (qis : List String)
    (sattr : String) (l : Nat) : LResult :=
  let divs := ((grouped df qis).map (·.1)).map fun key =>
    nuniq ((groupRows df qis key).map fun r => getCell df.cols r sattr)
  let violations := divs.filter fun d => decide (d < l)
  { satisfies_l_diversity := decide (violations.length = 0)
    l_value := l
    sensitive_attribute := sattr
    total_groups := divs.length
    violating_groups := violations.length
    min_diversity := pdMin divs
    max_diversity := pdMax divs
    avg_diversity := pdMean divs }

/-- The pure value computed by the loop of
`calculate_earth_movers_distance` when both totals are positive: half the
sum, over the union of observed values, of the absolute differences of
relative frequencies. -/
def emdVal (d1 d2 : List (Val × Nat)) : ℚ :=
  (((keysOf d1 ++ keysOf d2).dedup).map fun key =>
    |(cget d1 key : ℚ) / (ctotal d1 : ℚ) - (cget d2 key : ℚ) / (ctotal d2 : ℚ)|).sum / 2

/-- `PrivacyEngine.calculate_earth_movers_distance(dist1, dist2)`.  When
no key is observed at all the loop body never runs and `0` is returned;
otherwise the first iteration divides by the totals, raising
`ZeroDivisionError` when either total is `0` (there is no guard in the
code). -/
def calculate_earth_movers_distance (d1 d2 : List (Val × Nat)) :
    Except PyErr ℚ :=
  if (keysOf d1 ++ keysOf d2).dedup = [] then Except.ok 0
  else if ctotal d1 = 0 ∨ ctotal d2 = 0 then Except.error PyErr.zeroDivisionError
  else Except.ok (emdVal d1 d2)

/-- One entry of the `violations` list of `check_t_closeness`. -/
structure TViolation where
  group : List Val
  distance : ℚ
  size : Nat
deriving DecidableEq

/-- Return value of `PrivacyEngine.check_t_closeness`. -/
structure TResult where
  satisfies_t_closeness : Bool
  t_value : ℚ
  sensitive_attribute : String
  total_groups : Nat
  violating_groups : Nat
  max_distance : ℚ
  avg_distance : ℚ
  violations : List TViolation
deriving DecidableEq

/-- The loop of `check_t_closeness`: walk the groups in iteration order,
appending each distance to `ds` and each group with distance `> t` to
`vs`. -/
def tAccum (df : DataFrame) (qis : List String) (sattr : String) (t : ℚ)
    (overall : List (Val × Nat)) :
    List (List Val) → List TViolation → List ℚ → List TViolation × List ℚ
  | [], vs, ds => (vs, ds)
  | key :: rest, vs, ds =>
    tAccum df qis sattr t overall rest
      (if t < emdVal (counterOf ((groupRows df qis key).map fun r =>
            getCell df.cols r sattr)) overall then
        vs ++ [{ group := key
                 distance := emdVal (counterOf ((groupRows df qis key).map fun r =>
                   getCell df.cols r sattr)) overall
                 size := (groupRows df qis key).length }]
      else vs)
      (ds ++ [emdVal (counterOf ((groupRows df qis key).map fun r =>
        getCell df.cols r sattr)) overall])

/-- `PrivacyEngine.check_t_closeness(df, quasi_identifiers,
sensitive_attribute)` with the engine's `t`: per-group distance to the
overall distribution, violation when strictly above `t`, first ten
violations retained. -/
def check_t_closeness (df : DataFrame) (qis : List String)
    (sattr : String) (t : ℚ) : TResult :=
  let overall := counterOf (df.rows.map fun r => getCell df.cols r sattr)
  let acc := tAccum df qis sattr t overall ((grouped df qis).map (·.1)) [] []
  { satisfies_t_closeness := decide (acc.1.length = 0)
    t_value := t
    sensitive_attribute := sattr
    total_groups := acc.2.length
    violating_groups := acc.1.length
    max_distance := maxQD 0 acc.2
    avg_distance := if acc.2.length = 0 then 0 else acc.2.sum / (acc.2.length : ℚ)
    violations := acc.1.take 10 }

/-- The pass/fail booleans of a comprehensive audit in scoring order: the
k-anonymity check, then the l-diversity and t-closeness checks of each
sensitive attribute in turn. -/
def auditChecks (df : DataFrame) (qis : List String) (sattrs : List String)
    (k l : Nat) (t : ℚ) : List Bool :=
  (check_k_anonymity df qis k).satisfies_k_anonymity ::
    sattrs.flatMap fun a =>
      [(check_l_diversity df qis a l).satisfies_l_diversity,
       (check_t_closeness df qis a t).satisfies_t_closeness]

/-- Return value of `PrivacyEngine.comprehensive_privacy_audit` (timestamp
omitted).  The per-attribute result mappings are kept as association
lists; for duplicate attribute names the Python dictionary retains a
single key, whose recomputed value equals every listed one. -/
structure AuditReport where
  record_count : Nat
  k_anonymity : KResult
  l_diversity : List (String × LResult)
  t_closeness : List (String × TResult)
  overall_privacy_score : ℚ
deriving DecidableEq

/-- `PrivacyEngine.comprehensive_privacy_audit(df, quasi_identifiers,
sensitive_attributes)`: run every check, then average the `100`-or-`0`
indicator scores with `np.mean`. -/
def comprehensive_privacy_audit (df : DataFrame) (qis : List String)
    (sattrs : List String) (k l : Nat) (t : ℚ) : AuditReport :=
  let scores : List ℚ := (auditChecks df qis sattrs k l t).map fun b => if b then 100 else 0
  { record_count := df.rows.length
    k_anonymity := check_k_anonymity df qis k
    l_diversity := sattrs.map fun a => (a, check_l_diversity df qis a l)
    t_closeness := sattrs.map fun a => (a, check_t_closeness df qis a t)
    overall_privacy_score := scores.sum / (scores.length : ℚ) }

/-- One element of `privacy_budget["queries"]` (timestamp omitted). -/
structure BudgetEntry where
  query : String
  epsilon : ℚ
  cumulative_epsilon : ℚ
deriving DecidableEq

/-- The `privacy_budget` state of a `PrivacyEngine` instance. -/
structure PrivacyBudget where
  epsilon : ℚ
  queries : List BudgetEntry
deriving DecidableEq

/-- `self.privacy_budget = {"epsilon": 0, "queries": []}` (constructor). -/
def initBudget : PrivacyBudget :=
  { epsilon := 0, queries := [] }

/-- `PrivacyEngine.track_privacy_budget(query_name, epsilon)`: add the
epsilon to the running total and append an entry carrying the new total —
with no sign check of any kind. -/
def track_privacy_budget (b : PrivacyBudget) (queryName : String) (eps : ℚ) :
    PrivacyBudget :=
  let newEps := b.epsilon + eps
  { epsilon := newEps
    queries := b.queries ++ [{ query := queryName, epsilon := eps, cumulative_epsilon := newEps }] }

/-- A sequence of `track_privacy_budget` calls. -/
def trackAll (b : PrivacyBudget) : List (String × ℚ) → PrivacyBudget
  | [] => b
  | c :: cs => trackAll (track_privacy_budget b c.1 c.2) cs

/-- The entries a call sequence starting from cumulative total `start`
appends: each entry's cumulative total is the previous one plus the
call's epsilon. -/
def runningEntries (start : ℚ) : List (String × ℚ) → List BudgetEntry
  | [] => []
  | c :: cs =>
    { query := c.1, epsilon := c.2, cumulative_epsilon := start + c.2 } ::
      runningEntries (start + c.2) cs

/-- Whether a row belongs to an undersized equivalence class: its
quasi-identifier key is null-free and its class has fewer than `k`
records. -/
def smallRow (df : DataFrame) (qis : List String) (k : Nat) (row : List Val) : Bool :=
  keyNonNull (rowKey df.cols qis row)
    && decide (keySize df qis (rowKey df.cols qis row) < k)

/-- The distance `check_t_closeness` computes for a group `key`: the
`emdVal` between the group's sensitive-value counter and the counter of
the whole column. -/
def tDist (df : DataFrame) (qis : List String) (sattr : String)
    (key : List Val) : ℚ :=
  emdVal (counterOf ((groupRows df qis key).map fun r => getCell df.cols r sattr))
    (counterOf (df.rows.map fun r => getCell df.cols r sattr))

/-- Every violating group of a t-closeness check, in group-iteration
order, with its key, distance and size. -/
def tViolAll (df : DataFrame) (qis : List String) (sattr : String) (t : ℚ) :
    List TViolation :=
  (((grouped df qis).map (·.1)).filter fun key =>
      decide (t < tDist df qis sattr key)).map
    fun key => { group := key
                 distance := tDist df qis sattr key
                 size := (groupRows df qis key).length }



/-- A one-record dataset whose single quasi-identifier value is null. -/
def sampleNull : DataFrame :=
  { cols := ["a"], rows := [[Val.vNull]] }

/-- A one-record dataset with a single age-band column. -/
def sampleOne : DataFrame :=
  { cols := ["age_group"], rows := [[Val.vStr "18-30"]] }

/-- A dataset with columns but no records. -/
def sampleEmpty : DataFrame :=
  { cols := ["age_group"], rows := [] }

/-- A four-record dataset over an age band and a gender column. -/
def sampleFour : DataFrame :=
  { cols := ["age_group", "gender"]
    rows := [[Val.vStr "18-30", Val.vStr "F"],
             [Val.vStr "18-30", Val.vStr "F"],
             [Val.vStr "61-75", Val.vStr "M"],
             [Val.vStr "18-30", Val.vStr "M"]] }

/-! ## Permutation facts about insertion sort -/

theorem insertLe_perm {α : Type} (le : α → α → Bool) (a : α) (l : List α) :
    (insertLe le a l).Perm (a :: l) := by
  induction l with
  | nil => simp [insertLe]
  | cons b rest ih =>
    by_cases h : le a b = true
    · simp [insertLe, h]
    · rw [insertLe, if_neg h]
      exact (ih.cons b).trans (List.Perm.swap a b rest)

theorem sortLe_perm {α : Type} (le : α → α → Bool) (l : List α) :
    (sortLe le l).Perm l := by
  induction l with
  | nil => simp [sortLe]
  | cons a rest ih => exact (insertLe_perm le a (sortLe le rest)).trans (ih.cons a)

/-! ## Counting facts about `bump`, `tally` and `ccount` -/

section TallyLemmas

variable {α : Type} [DecidableEq α]

theorem keysOf_nil : keysOf ([] : List (α × Nat)) = [] := rfl

theorem keysOf_cons (p : α × Nat) (d : List (α × Nat)) :
    keysOf (p :: d) = p.1 :: keysOf d := rfl

theorem cget_cons (p : α × Nat) (d : List (α × Nat)) (a : α) :
    cget (p :: d) a = if p.1 = a then p.2 else cget d a := rfl

theorem ccount_cons (x : α) (xs : List α) (a : α) :
    ccount (x :: xs) a = (if x = a then 1 else 0) + ccount xs a := by
  by_cases h : x = a <;> simp [ccount, List.filter_cons, h, Nat.add_comm]

theorem bump_cons_ne {p : α × Nat} {a : α} (rest : List (α × Nat))
    (h : ¬ p.1 = a) : bump (p :: rest) a = p :: bump rest a := by
  rw [bump, if_neg h]

theorem bump_cons_eq {p : α × Nat} {a : α} (rest : List (α × Nat))
    (h : p.1 = a) : bump (p :: rest) a = (p.1, p.2 + 1) :: rest := by
  rw [bump, if_pos h]

theorem keysOf_bump (acc : List (α × Nat)) (a : α) :
    keysOf (bump acc a) =
      if a ∈ keysOf acc then keysOf acc else keysOf acc ++ [a] := by
  induction acc with
  | nil => simp [bump, keysOf]
  | cons p rest ih =>
    by_cases h : p.1 = a
    · have hmem2 : a ∈ keysOf (p :: rest) := by
        rw [keysOf_cons, h]
        exact List.mem_cons_self a _
      rw [if_pos hmem2, bump_cons_eq rest h, keysOf_cons, keysOf_cons]
    · have hmem : (a ∈ keysOf (p :: rest)) ↔ (a ∈ keysOf rest) := by
        rw [keysOf_cons]
        constructor
        · intro hm
          rcases List.mem_cons.mp hm with h1 | h1
          · exact absurd h1.symm h
          · exact h1
        · intro hm
          exact List.mem_cons_of_mem _ hm
      by_cases h2 : a ∈ keysOf rest
      · rw [if_pos (hmem.mpr h2), bump_cons_ne rest h, keysOf_cons, keysOf_cons,
          ih, if_pos h2]
      · rw [if_neg (fun hm => h2 (hmem.mp hm)), bump_cons_ne rest h, keysOf_cons,
          keysOf_cons, ih, if_neg h2, List.cons_append]

theorem cget_bump (acc : List (α × Nat)) (a x : α) :
    cget (bump acc a) x = cget acc x + (if x = a then 1 else 0) := by
  induction acc with
  | nil =>
    by_cases h : x = a
    · rw [h]; simp [bump, cget]
    · rw [bump, cget_cons, if_neg (fun h2 : a = x => h h2.symm), if_neg h]
      rfl
  | cons p rest ih =>
    by_cases h : p.1 = a
    · rw [bump_cons_eq rest h, cget_cons, cget_cons]
      by_cases h2 : p.1 = x
      · rw [if_pos h2, if_pos h2, if_pos (by rw [← h2, h])]
      · rw [if_neg h2, if_neg h2,
          if_neg (fun h3 : x = a => h2 (by rw [h3, ← h])), Nat.add_zero]
    · rw [bump_cons_ne rest h, cget_cons, cget_cons]
      by_cases h2 : p.1 = x
      · rw [if_pos h2, if_pos h2,
          if_neg (fun h3 : x = a => h (by rw [h2, h3])), Nat.add_zero]
      · rw [if_neg h2, if_neg h2, ih]

theorem ctotal_cons (p : α × Nat) (d : List (α × Nat)) :
    ctotal (p :: d) = p.2 + ctotal d := by
  simp [ctotal]

theorem ctotal_bump (acc : List (α × Nat)) (a : α) :
    ctotal (bump acc a) = ctotal acc + 1 := by
  induction acc with
  | nil => simp [bump, ctotal]
  | cons p rest ih =>
    by_cases h : p.1 = a
    · rw [bump_cons_eq rest h, ctotal_cons, ctotal_cons]
      omega
    · rw [bump_cons_ne rest h, ctotal_cons, ctotal_cons, ih]
      omega

theorem nodup_keysOf_bump (acc : List (α × Nat)) (a : α)
    (h : (keysOf acc).Nodup) : (keysOf (bump acc a)).Nodup := by
  rw [keysOf_bump]
  by_cases h2 : a ∈ keysOf acc
  · simpa [h2] using h
  · rw [if_neg h2]
    exact List.nodup_append.mpr ⟨h, List.nodup_singleton a, by simpa using h2⟩

theorem cget_foldl_bump (xs : List α) :
    ∀ (acc : List (α × Nat)) (x : α),
      cget (xs.foldl bump acc) x = cget acc x + ccount xs x := by
  induction xs with
  | nil => intro acc x; simp [ccount]
  | cons y ys ih =>
    intro acc x
    have hcomm : (if x = y then 1 else 0) = (if y = x then 1 else 0) := by
      by_cases h : x = y
      · rw [if_pos h, if_pos h.symm]
      · rw [if_neg h, if_neg (fun h2 : y = x => h h2.symm)]
    rw [List.foldl_cons, ih, cget_bump, ccount_cons, hcomm]
    omega

theorem mem_keysOf_bump (acc : List (α × Nat)) (a x : α) :
    x ∈ keysOf (bump acc a) ↔ x ∈ keysOf acc ∨ x = a := by
  rw [keysOf_bump]
  by_cases h2 : a ∈ keysOf acc
  · rw [if_pos h2]
    constructor
    · exact Or.inl
    · rintro (h | rfl)
      · exact h
      · exact h2
  · rw [if_neg h2]
    simp [List.mem_append]

theorem mem_keysOf_foldl_bump (xs : List α) :
    ∀ (acc : List (α × Nat)) (x : α),
      x ∈ keysOf (xs.foldl bump acc) ↔ x ∈ keysOf acc ∨ x ∈ xs := by
  induction xs with
  | nil => intro acc x; simp
  | cons y ys ih =>
    intro acc x
    rw [List.foldl_cons, ih, mem_keysOf_bump]
    simp only [List.mem_cons]
    tauto

theorem nodup_keysOf_foldl_bump (xs : List α) :
    ∀ (acc : List (α × Nat)), (keysOf acc).Nodup →
      (keysOf (xs.foldl bump acc)).Nodup := by
  induction xs with
  | nil => intro acc h; simpa using h
  | cons y ys ih =>
    intro acc h
    exact ih (bump acc y) (nodup_keysOf_bump acc y h)

theorem ctotal_foldl_bump (xs : List α) :
    ∀ (acc : List (α × Nat)),
      ctotal (xs.foldl bump acc) = ctotal acc + xs.length := by
  induction xs with
  | nil => intro acc; simp
  | cons y ys ih =>
    intro acc
    rw [List.foldl_cons, ih, ctotal_bump, List.length_cons]
    omega

theorem mem_keysOf_of_mem {d : List (α × Nat)} {p : α × Nat}
    (h : p ∈ d) : p.1 ∈ keysOf d := by
  unfold keysOf
  exact List.mem_map_of_mem _ h

theorem cget_of_mem_nodup (d : List (α × Nat)) (hd : (keysOf d).Nodup) :
    ∀ p ∈ d, p.2 = cget d p.1 := by
  induction d with
  | nil => intro p hp; simp at hp
  | cons q rest ih =>
    intro p hp
    have hd2 : (q.1 :: keysOf rest).Nodup := by
      rw [← keysOf_cons]
      exact hd
    have hq : q.1 ∉ keysOf rest := (List.nodup_cons.mp hd2).1
    have hrest : (keysOf rest).Nodup := (List.nodup_cons.mp hd2).2
    rcases List.mem_cons.mp hp with rfl | hp2
    · rw [cget_cons, if_pos rfl]
    · have hne : q.1 ≠ p.1 := by
        intro hcon
        exact hq (hcon ▸ mem_keysOf_of_mem hp2)
      rw [cget_cons, if_neg hne]
      exact ih hrest p hp2

theorem mem_of_mem_keysOf (d : List (α × Nat)) (x : α)
    (h : x ∈ keysOf d) : (x, cget d x) ∈ d := by
  induction d with
  | nil => simp [keysOf] at h
  | cons q rest ih =>
    by_cases h2 : q.1 = x
    · have : (x, cget (q :: rest) x) = q := by
        rw [cget_cons, if_pos h2, ← h2]
      rw [this]
      exact List.mem_cons_self q rest
    · have hx : x ∈ keysOf rest := by
        rw [keysOf_cons] at h
        rcases List.mem_cons.mp h with h3 | h3
        · exact absurd h3.symm h2
        · exact h3
      rw [cget_cons, if_neg h2]
      exact List.mem_cons_of_mem q (ih hx)

theorem cget_tally (xs : List α) (x : α) : cget (tally xs) x = ccount xs x := by
  have := cget_foldl_bump xs [] x
  rw [tally, this]
  simp [cget]

theorem mem_tally (xs : List α) (p : α × Nat) :
    p ∈ tally xs ↔ p.1 ∈ xs ∧ p.2 = ccount xs p.1 := by
  constructor
  · intro hp
    have hk : p.1 ∈ keysOf (tally xs) := mem_keysOf_of_mem hp
    have hx : p.1 ∈ xs := by
      rcases (mem_keysOf_foldl_bump xs [] p.1).mp hk with h | h
      · simp [keysOf] at h
      · exact h
    have hnd : (keysOf (tally xs)).Nodup :=
      nodup_keysOf_foldl_bump xs [] (by simp [keysOf])
    exact ⟨hx, (cget_of_mem_nodup _ hnd p hp).trans (cget_tally xs p.1)⟩
  · rintro ⟨hx, hc⟩
    have hk : p.1 ∈ keysOf (tally xs) :=
      (mem_keysOf_foldl_bump xs [] p.1).mpr (Or.inr hx)
    have hmem := mem_of_mem_keysOf (tally xs) p.1 hk
    rw [cget_tally] at hmem
    have hpp : p = (p.1, ccount xs p.1) := by
      cases p with
      | mk a n => simpa using hc
    rw [hpp]
    exact hmem

theorem nodup_keysOf_tally (xs : List α) : (keysOf (tally xs)).Nodup :=
  nodup_keysOf_foldl_bump xs [] (by simp [keysOf])

theorem filterSum_bump (q : α → Bool) (acc : List (α × Nat)) (a : α) :
    (((bump acc a).filter fun p => q p.1).map (·.2)).sum
      = ((acc.filter fun p => q p.1).map (·.2)).sum + (if q a then 1 else 0) := by
  induction acc with
  | nil =>
    by_cases h : q a = true <;> simp [bump, List.filter_cons, h]
  | cons p rest ih =>
    by_cases h : p.1 = a
    · rw [bump_cons_eq rest h]
      by_cases h2 : q p.1 = true
      · have h3 : q a = true := by rw [← h]; exact h2
        simp [List.filter_cons, h2, h3]
        omega
      · have h3 : ¬ q a = true := by rw [← h]; exact h2
        simp [List.filter_cons, h2, h3]
    · rw [bump_cons_ne rest h]
      by_cases h2 : q p.1 = true
      · simp only [List.filter_cons, h2, if_true, List.map_cons, List.sum_cons, ih]
        omega
      · simp only [List.filter_cons, h2, if_false, Bool.false_eq_true, ih]

theorem filterSum_foldl_bump (q : α → Bool) (xs : List α) :
    ∀ (acc : List (α × Nat)),
      (((xs.foldl bump acc).filter fun p => q p.1).map (·.2)).sum
        = ((acc.filter fun p => q p.1).map (·.2)).sum + (xs.filter q).length := by
  induction xs with
  | nil => intro acc; simp
  | cons y ys ih =>
    intro acc
    rw [List.foldl_cons, ih, filterSum_bump]
    by_cases h : q y = true <;> simp [List.filter_cons, h] <;> omega

theorem filterSum_tally (q : α → Bool) (xs : List α) :
    (((tally xs).filter fun p => q p.1).map (·.2)).sum = (xs.filter q).length := by
  have := filterSum_foldl_bump q xs []
  rw [tally, this]
  simp

end TallyLemmas

/-! ## Facts about `grouped` -/

theorem grouped_perm (df : DataFrame) (qis : List String) :
    (grouped df qis).Perm (tally (nnKeys df qis)) :=
  sortLe_perm _ _

theorem mem_grouped (df : DataFrame) (qis : List String) (p : List Val × Nat) :
    p ∈ grouped df qis ↔
      p.1 ∈ nnKeys df qis ∧ p.2 = ccount (nnKeys df qis) p.1 :=
  ((grouped_perm df qis).mem_iff).trans (mem_tally _ p)

theorem nodup_keysOf_grouped (df : DataFrame) (qis : List String) :
    (keysOf (grouped df qis)).Nodup := by
  have h2 : (keysOf (tally (nnKeys df qis))).Nodup := nodup_keysOf_tally _
  unfold keysOf at h2 ⊢
  exact ((grouped_perm df qis).map _).nodup_iff.mpr h2

theorem sum_grouped (df : DataFrame) (qis : List String) :
    ((grouped df qis).map (·.2)).sum = (nnKeys df qis).length := by
  have h1 : ((grouped df qis).map (·.2)).Perm ((tally (nnKeys df qis)).map (·.2)) :=
    (grouped_perm df qis).map (·.2)
  rw [h1.sum_eq]
  have h2 := ctotal_foldl_bump (nnKeys df qis) []
  simpa [tally, ctotal] using h2

theorem filterSum_grouped (df : DataFrame) (qis : List String)
    (q : List Val → Bool) :
    (((grouped df qis).filter fun p => q p.1).map (·.2)).sum
      = ((nnKeys df qis).filter q).length := by
  have h1 : ((((grouped df qis).filter fun p => q p.1)).map (·.2)).Perm
      ((((tally (nnKeys df qis)).filter fun p => q p.1)).map (·.2)) :=
    ((grouped_perm df qis).filter _).map (·.2)
  rw [h1.sum_eq, filterSum_tally]

theorem ccount_nnKeys_eq_keySize (df : DataFrame) (qis : List String)
    (key : List Val) (h : keyNonNull key = true) :
    ccount (nnKeys df qis) key = keySize df qis key := by
  unfold ccount nnKeys keySize
  rw [List.filter_filter]
  have hcong : ∀ a ∈ df.rows.map (rowKey df.cols qis),
      (decide (a = key) && keyNonNull a) = decide (a = key) := by
    intro a _
    by_cases h2 : a = key
    · rw [h2, h]
      simp
    · simp [h2]
  rw [List.filter_congr hcong, List.filter_map, List.length_map]
  rfl

theorem mem_nnKeys (df : DataFrame) (qis : List String) (key : List Val) :
    key ∈ nnKeys df qis ↔
      keyNonNull key = true ∧ ∃ r ∈ df.rows, rowKey df.cols qis r = key := by
  unfold nnKeys
  rw [List.mem_filter, List.mem_map]
  constructor
  · rintro ⟨⟨r, hr, rfl⟩, hnn⟩
    exact ⟨hnn, r, hr, rfl⟩
  · rintro ⟨hnn, r, hr, rfl⟩
    exact ⟨⟨r, hr, rfl⟩, hnn⟩

/-! ## Claim C1: the k-anonymity verdict and the records at risk -/

/-- C1 counterexample: on a dataset whose single record has a null
quasi-identifier value, with `k = 2`, pandas drops the record from the
grouping, so `check_k_anonymity` reports `satisfies_k_anonymity = true`
and `records_at_risk = 0`, although the record's equivalence class (as
the claim defines it, over all records) has size `1 < 2` and the sum of
sizes of undersized classes is `1`. -/
theorem check_k_anonymity_null_cex :
    (check_k_anonymity sampleNull ["a"] 2).satisfies_k_anonymity = true
    ∧ ¬ (∀ r ∈ sampleNull.rows,
          2 ≤ keySize sampleNull ["a"] (rowKey sampleNull.cols ["a"] r))
    ∧ (check_k_anonymity sampleNull ["a"] 2).records_at_risk = 0
    ∧ (sampleNull.rows.filter fun r =>
        decide (keySize sampleNull ["a"] (rowKey sampleNull.cols ["a"] r) < 2)).length
        = 1 := by
  decide

/-- C1 (amended for the dropped null keys): for every dataset, non-empty
quasi-identifier list of schema columns and `k ≥ 1`,
`check_k_anonymity` reports `satisfies_k_anonymity = true` iff every
record with a null-free quasi-identifier tuple lies in an equivalence
class of size `≥ k`, and `records_at_risk` equals the number of records
in null-free classes of size `< k` (the sum of those classes' sizes). -/
theorem check_k_anonymity_iff (df : DataFrame) (qis : List String) (k : Nat)
    (hk : 1 ≤ k) (hq : qis ≠ []) (hc : ∀ c ∈ qis, c ∈ df.cols) :
    ((check_k_anonymity df qis k).satisfies_k_anonymity = true ↔
      ∀ r ∈ df.rows, keyNonNull (rowKey df.cols qis r) = true →
        k ≤ keySize df qis (rowKey df.cols qis r))
    ∧ (check_k_anonymity df qis k).records_at_risk
        = (df.rows.filter fun r =>
            keyNonNull (rowKey df.cols qis r)
              && decide (keySize df qis (rowKey df.cols qis r) < k)).length := by
  have hviol : ∀ p ∈ grouped df qis,
      (fun pp : List Val × Nat => decide (pp.2 < k)) p
        = (fun pp : List Val × Nat =>
            decide (ccount (nnKeys df qis) pp.1 < k)) p := by
    intro p hp
    show decide (p.2 < k) = decide (ccount (nnKeys df qis) p.1 < k)
    rw [((mem_grouped df qis p).mp hp).2]
  constructor
  · have h1 : (check_k_anonymity df qis k).satisfies_k_anonymity
        = decide ((((grouped df qis).filter fun p => decide (p.2 < k))).length = 0) :=
      rfl
    rw [h1, decide_eq_true_eq, List.length_eq_zero, List.filter_eq_nil_iff]
    constructor
    · intro hall r hr hnn
      have hmemnn : rowKey df.cols qis r ∈ nnKeys df qis :=
        (mem_nnKeys df qis _).mpr ⟨hnn, r, hr, rfl⟩
      have hmemg : (rowKey df.cols qis r,
          ccount (nnKeys df qis) (rowKey df.cols qis r)) ∈ grouped df qis :=
        (mem_grouped df qis _).mpr ⟨hmemnn, rfl⟩
      have hng := hall _ hmemg
      rw [← ccount_nnKeys_eq_keySize df qis _ hnn]
      simp only [decide_eq_true_eq] at hng
      omega
    · intro hall p hp
      rcases (mem_grouped df qis p).mp hp with ⟨hmem, hcnt⟩
      rcases (mem_nnKeys df qis p.1).mp hmem with ⟨hnn, r, hr, hkeq⟩
      have hks := hall r hr (by rw [hkeq]; exact hnn)
      rw [hkeq, ← ccount_nnKeys_eq_keySize df qis p.1 hnn] at hks
      simp only [decide_eq_true_eq]
      omega
  · have h2 : (check_k_anonymity df qis k).records_at_risk
        = if 0 < (((grouped df qis).filter fun p => decide (p.2 < k))).length
          then ((((grouped df qis).filter fun p => decide (p.2 < k))).map (·.2)).sum
          else 0 := rfl
    have e1 : ((grouped df qis).filter fun p => decide (p.2 < k))
        = ((grouped df qis).filter fun p => decide (ccount (nnKeys df qis) p.1 < k)) :=
      List.filter_congr hviol
    have e2 : ∀ q : List Val → Bool,
        ((nnKeys df qis).filter q).length
          = (df.rows.filter fun r =>
              q (rowKey df.cols qis r) && keyNonNull (rowKey df.cols qis r)).length := by
      intro q
      unfold nnKeys
      rw [List.filter_filter, List.filter_map, List.length_map]
      rfl
    have e3 : (df.rows.filter fun r =>
          (fun key => decide (ccount (nnKeys df qis) key < k)) (rowKey df.cols qis r)
            && keyNonNull (rowKey df.cols qis r))
        = (df.rows.filter fun r =>
            keyNonNull (rowKey df.cols qis r)
              && decide (keySize df qis (rowKey df.cols qis r) < k)) := by
      apply List.filter_congr
      intro r _
      show (decide (ccount (nnKeys df qis) (rowKey df.cols qis r) < k)
            && keyNonNull (rowKey df.cols qis r))
          = (keyNonNull (rowKey df.cols qis r)
            && decide (keySize df qis (rowKey df.cols qis r) < k))
      by_cases hnn : keyNonNull (rowKey df.cols qis r) = true
      · rw [hnn, ccount_nnKeys_eq_keySize df qis _ hnn, Bool.and_true, Bool.true_and]
      · rw [Bool.not_eq_true] at hnn
        rw [hnn, Bool.and_false, Bool.false_and]
    have hsum : ((((grouped df qis).filter fun p => decide (p.2 < k))).map (·.2)).sum
        = (df.rows.filter fun r =>
            keyNonNull (rowKey df.cols qis r)
              && decide (keySize df qis (rowKey df.cols qis r) < k)).length := by
      rw [e1]
      have := filterSum_grouped df qis
        (fun key => decide (ccount (nnKeys df qis) key < k))
      rw [this, e2, e3]
    rw [h2]
    by_cases hlen : 0 < (((grouped df qis).filter fun p => decide (p.2 < k))).length
    · rw [if_pos hlen, hsum]
    · rw [if_neg hlen]
      have hnil : ((grouped df qis).filter fun p => decide (p.2 < k)) = [] := by
        rw [← List.length_eq_zero]
        omega
      rw [← hsum, hnil]
      rfl

/-- C1 witness: the amended theorem applied to a concrete one-record
dataset with `k = 1`. -/
theorem check_k_anonymity_iff_witness :
    ((check_k_anonymity sampleOne ["age_group"] 1).satisfies_k_anonymity = true ↔
      ∀ r ∈ sampleOne.rows, keyNonNull (rowKey sampleOne.cols ["age_group"] r) = true →
        1 ≤ keySize sampleOne ["age_group"] (rowKey sampleOne.cols ["age_group"] r))
    ∧ (check_k_anonymity sampleOne ["age_group"] 1).records_at_risk
        = (sampleOne.rows.filter fun r =>
            keyNonNull (rowKey sampleOne.cols ["age_group"] r)
              && decide (keySize sampleOne ["age_group"]
                  (rowKey sampleOne.cols ["age_group"] r) < 1)).length :=
  check_k_anonymity_iff sampleOne ["age_group"] 1 (by decide) (by decide) (by decide)

/-! ## Claim C2: class sizes partition the (null-free) records -/

/-- C2 counterexample: with a null quasi-identifier value the record is
dropped by pandas, so the class sizes sum to `0`, not to the dataset's
record count `1`. -/
theorem grouped_sizes_null_cex :
    ((grouped sampleNull ["a"]).map (·.2)).sum = 0
    ∧ sampleNull.rows.length = 1 := by
  decide

/-- C2 (amended for the dropped null keys): for every dataset and
non-empty quasi-identifier list of schema columns, the equivalence-class
sizes produced by the grouping step sum to the number of records whose
quasi-identifier tuple is null-free (not to the total record count), and
every class has size `≥ 1`. -/
theorem grouped_sizes_partition (df : DataFrame) (qis : List String)
    (hq : qis ≠ []) (hc : ∀ c ∈ qis, c ∈ df.cols) :
    ((grouped df qis).map (·.2)).sum
        = (df.rows.filter fun r => keyNonNull (rowKey df.cols qis r)).length
    ∧ ∀ p ∈ grouped df qis, 1 ≤ p.2 := by
  constructor
  · rw [sum_grouped]
    unfold nnKeys
    rw [List.filter_map, List.length_map]
    rfl
  · intro p hp
    rcases (mem_grouped df qis p).mp hp with ⟨hmem, hcnt⟩
    rw [hcnt]
    have hfil : p.1 ∈ (nnKeys df qis).filter fun x => decide (x = p.1) :=
      List.mem_filter.mpr ⟨hmem, by simp⟩
    exact List.length_pos.mpr (List.ne_nil_of_mem hfil)

/-- C2 witness: the amended theorem applied to a concrete four-record
dataset. -/
theorem grouped_sizes_partition_witness :
    ((grouped sampleFour ["age_group", "gender"]).map (·.2)).sum
        = (sampleFour.rows.filter fun r =>
            keyNonNull (rowKey sampleFour.cols ["age_group", "gender"] r)).length
    ∧ ∀ p ∈ grouped sampleFour ["age_group", "gender"], 1 ≤ p.2 :=
  grouped_sizes_partition sampleFour ["age_group", "gender"] (by decide) (by decide)

/-! ## Cell access across the appended helper column -/

theorem colIdx_lt_length (cols : List String) (c : String) :
    ∀ i, colIdx cols c = some i → i < cols.length := by
  induction cols with
  | nil => intro i h; simp [colIdx] at h
  | cons c0 rest ih =>
    intro i h
    rw [colIdx] at h
    by_cases h2 : c0 = c
    · rw [if_pos h2] at h
      injection h with h
      subst h
      simp
    · rw [if_neg h2] at h
      cases h3 : colIdx rest c with
      | none => rw [h3] at h; simp at h
      | some j =>
        rw [h3] at h
        simp only [Option.map_some'] at h
        injection h with h
        subst h
        have := ih j h3
        simp only [List.length_cons]
        omega

theorem colIdx_append_some (cols l2 : List String) (c : String) (i : Nat)
    (h : colIdx cols c = some i) : colIdx (cols ++ l2) c = some i := by
  induction cols generalizing i with
  | nil => simp [colIdx] at h
  | cons c0 rest ih =>
    rw [List.cons_append, colIdx]
    rw [colIdx] at h
    by_cases h2 : c0 = c
    · rw [if_pos h2] at h ⊢
      exact h
    · rw [if_neg h2] at h ⊢
      cases h3 : colIdx rest c with
      | none => rw [h3] at h; simp at h
      | some j =>
        rw [h3] at h
        rw [ih j h3]
        exact h

theorem colIdx_mem (cols : List String) (c : String) (h : c ∈ cols) :
    ∃ i, colIdx cols c = some i := by
  induction cols with
  | nil => simp at h
  | cons c0 rest ih =>
    by_cases h2 : c0 = c
    · exact ⟨0, by rw [colIdx, if_pos h2]⟩
    · have hr : c ∈ rest := by
        rcases List.mem_cons.mp h with h3 | h3
        · exact absurd h3.symm h2
        · exact h3
      rcases ih hr with ⟨j, hj⟩
      exact ⟨j + 1, by rw [colIdx, if_neg h2, hj]; rfl⟩

theorem colIdx_append_self (cols : List String) (c : String) (h : c ∉ cols) :
    colIdx (cols ++ [c]) c = some cols.length := by
  induction cols with
  | nil => simp [colIdx]
  | cons c0 rest ih =>
    have h2 : ¬ c0 = c := fun hc => h (List.mem_cons.mpr (Or.inl hc.symm))
    have h3 : c ∉ rest := fun hc => h (List.mem_cons_of_mem c0 hc)
    rw [List.cons_append, colIdx, if_neg h2, ih h3]
    rfl

theorem getD_append_lt {α : Type} (l l2 : List α) (d : α) :
    ∀ i, i < l.length → (l ++ l2).getD i d = l.getD i d := by
  induction l with
  | nil => intro i h; simp at h
  | cons x rest ih =>
    intro i h
    cases i with
    | zero => rfl
    | succ j =>
      rw [List.cons_append]
      show (rest ++ l2).getD j d = rest.getD j d
      exact ih j (by simpa using h)

theorem getD_append_length {α : Type} (l : List α) (x : α) (l2 : List α) (d : α) :
    (l ++ (x :: l2)).getD l.length d = x := by
  induction l with
  | nil => rfl
  | cons y rest ih => simpa using ih

theorem eraseIdx_append_length {α : Type} (l : List α) (x : α) :
    (l ++ [x]).eraseIdx l.length = l := by
  induction l with
  | nil => rfl
  | cons y rest ih =>
    rw [List.cons_append, List.length_cons, List.eraseIdx_cons_succ, ih]

theorem getCell_append_of_mem (cols : List String) (row : List Val) (c : String)
    (l2 : List String) (t : List Val) (hWF : row.length = cols.length)
    (hc : c ∈ cols) :
    getCell (cols ++ l2) (row ++ t) c = getCell cols row c := by
  rcases colIdx_mem cols c hc with ⟨i, hi⟩
  have hlt : i < row.length := by
    rw [hWF]
    exact colIdx_lt_length cols c i hi
  unfold getCell
  rw [hi, colIdx_append_some cols l2 c i hi]
  exact getD_append_lt row t _ i hlt

theorem getCell_append_last (cols : List String) (row : List Val) (c : String)
    (x : Val) (hWF : row.length = cols.length) (hc : c ∉ cols) :
    getCell (cols ++ [c]) (row ++ [x]) c = x := by
  unfold getCell
  rw [colIdx_append_self cols c hc]
  show (row ++ [x]).getD cols.length Val.vNull = x
  rw [← hWF]
  exact getD_append_length row x [] Val.vNull

theorem setCell_append (cols : List String) (row : List Val) (c : String)
    (v : Val) (l2 : List String) (t : List Val)
    (hWF : row.length = cols.length) (hc : c ∈ cols) :
    setCell (cols ++ l2) (row ++ t) c v = setCell cols row c v ++ t := by
  rcases colIdx_mem cols c hc with ⟨i, hi⟩
  have hlt : i < row.length := by
    rw [hWF]
    exact colIdx_lt_length cols c i hi
  unfold setCell
  rw [hi, colIdx_append_some cols l2 c i hi]
  exact List.set_append_left _ _ hlt

theorem rowKey_append (df : DataFrame) (qis : List String) (row : List Val)
    (l2 : List String) (t : List Val) (hWF : row.length = df.cols.length)
    (hq : ∀ c ∈ qis, c ∈ df.cols) :
    rowKey (df.cols ++ l2) qis (row ++ t) = rowKey df.cols qis row := by
  unfold rowKey
  exact List.map_congr_left fun c hcq =>
    getCell_append_of_mem df.cols row c l2 t hWF (hq c hcq)

theorem dropCol_addGroupSize (df : DataFrame) (qis : List String)
    (hWF : DFWF df) (hgs : "_group_size" ∉ df.cols) :
    dropCol (addGroupSize df qis) "_group_size" = df := by
  unfold dropCol addGroupSize
  rw [colIdx_append_self df.cols _ hgs]
  show DataFrame.mk ((df.cols ++ ["_group_size"]).eraseIdx df.cols.length)
      ((df.rows.map fun r => r ++ [gsVal df qis r]).map (·.eraseIdx df.cols.length))
    = df
  rw [eraseIdx_append_length, List.map_map]
  have hrows : df.rows.map ((·.eraseIdx df.cols.length) ∘ fun r => r ++ [gsVal df qis r])
      = df.rows := by
    have h2 : ∀ r ∈ df.rows,
        ((·.eraseIdx df.cols.length) ∘ fun r => r ++ [gsVal df qis r]) r = id r := by
      intro r hr
      show (r ++ [gsVal df qis r]).eraseIdx df.cols.length = r
      rw [← hWF r hr]
      exact eraseIdx_append_length r _
    rw [List.map_congr_left h2, List.map_id]
  rw [hrows]

/-! ## Claim C7: the empty dataset -/

/-- C7 counterexample: on the empty dataset `check_k_anonymity` reports
`smallest_group_size` and `largest_group_size` as the float `NaN`
(pandas `Series.min`/`Series.max` of an empty series), not as
`None`/null as the claim requires. -/
theorem check_k_anonymity_empty_cex :
    (check_k_anonymity sampleEmpty ["age_group"] 5).smallest_group_size = PdScalar.nan
    ∧ (check_k_anonymity sampleEmpty ["age_group"] 5).smallest_group_size ≠ PdScalar.null
    ∧ (check_k_anonymity sampleEmpty ["age_group"] 5).largest_group_size ≠ PdScalar.null := by
  decide

/-- C7 (amended): on an empty dataset `check_k_anonymity` returns
`total_groups = 0` and `satisfies_k_anonymity = true`, and reports the
smallest and largest group size as the float `NaN` (the pandas empty
`min`/`max`), not as `None` and not as `0`. -/
theorem check_k_anonymity_empty (df : DataFrame) (qis : List String) (k : Nat)
    (he : df.rows = []) (hq : qis ≠ []) (hc : ∀ c ∈ qis, c ∈ df.cols) :
    (check_k_anonymity df qis k).total_groups = 0
    ∧ (check_k_anonymity df qis k).satisfies_k_anonymity = true
    ∧ (check_k_anonymity df qis k).smallest_group_size = PdScalar.nan
    ∧ (check_k_anonymity df qis k).largest_group_size = PdScalar.nan := by
  have hg : grouped df qis = [] := by
    unfold grouped nnKeys
    rw [he]
    rfl
  refine ⟨?_, ?_, ?_, ?_⟩
  · show (grouped df qis).length = 0
    rw [hg]
    rfl
  · show decide ((((grouped df qis).filter fun p => decide (p.2 < k))).length = 0) = true
    rw [hg]
    rfl
  · show pdMin ((grouped df qis).map (·.2)) = PdScalar.nan
    rw [hg]
    rfl
  · show pdMax ((grouped df qis).map (·.2)) = PdScalar.nan
    rw [hg]
    rfl

/-- C7 witness: the amended theorem applied to a concrete empty dataset. -/
theorem check_k_anonymity_empty_witness :
    (check_k_anonymity sampleEmpty ["age_group"] 5).total_groups = 0
    ∧ (check_k_anonymity sampleEmpty ["age_group"] 5).satisfies_k_anonymity = true
    ∧ (check_k_anonymity sampleEmpty ["age_group"] 5).smallest_group_size = PdScalar.nan
    ∧ (check_k_anonymity sampleEmpty ["age_group"] 5).largest_group_size = PdScalar.nan :=
  check_k_anonymity_empty sampleEmpty ["age_group"] 5 (by decide) (by decide) (by decide)

/-! ## Claim C3: the caller's dataframe is mutated by enforcement -/

/-- C3 counterexample: after a `suppress` enforcement call on a concrete
one-record dataset, the caller's dataframe is no longer equal to the
input — it has gained the in-place `_group_size` helper column. -/
theorem enforce_k_anonymity_mutation_cex :
    (enforce_k_anonymity sampleOne ["age_group"] 1 "suppress").1 ≠ sampleOne
    ∧ (enforce_k_anonymity sampleOne ["age_group"] 1 "suppress").1.cols
        = ["age_group", "_group_size"] := by
  decide

/-- C3 (amended): `enforce_k_anonymity` mutates the caller's dataset
in-place: after every call (any method) the caller's dataframe carries
one extra trailing `_group_size` column, never removed; that helper
column is the only in-place change — dropping it recovers the original
dataframe exactly — and the enforcement result is a separate dataframe
value. -/
theorem enforce_k_anonymity_mutates (df : DataFrame) (qis : List String)
    (k : Nat) (method : String) (hWF : DFWF df)
    (hgs : "_group_size" ∉ df.cols) :
    (enforce_k_anonymity df qis k method).1.cols = df.cols ++ ["_group_size"]
    ∧ dropCol (enforce_k_anonymity df qis k method).1 "_group_size" = df := by
  have h1 : (enforce_k_anonymity df qis k method).1 = addGroupSize df qis := rfl
  rw [h1]
  exact ⟨rfl, dropCol_addGroupSize df qis hWF hgs⟩

/-- C3 witness: the amended theorem applied to a concrete one-record
dataset with the `suppress` method. -/
theorem enforce_k_anonymity_mutates_witness :
    (enforce_k_anonymity sampleOne ["age_group"] 1 "suppress").1.cols
        = sampleOne.cols ++ ["_group_size"]
    ∧ dropCol (enforce_k_anonymity sampleOne ["age_group"] 1 "suppress").1
        "_group_size" = sampleOne :=
  enforce_k_anonymity_mutates sampleOne ["age_group"] 1 "suppress"
    (by decide) (by decide)

/-! ## Claim C6: the unknown-method failure -/

/-- C6 counterexample: with the unknown method `"delete"` the call fails
with `UnboundLocalError` (the source's `df_anonymous` is referenced by
the final `drop` without ever being assigned), which is not the
dedicated `UnknownMethodError` kind the claim requires. -/
theorem enforce_k_anonymity_unknown_cex :
    (enforce_k_anonymity sampleOne ["age_group"] 1 "delete").2
        = Except.error PyErr.unboundLocalError
    ∧ PyErr.unboundLocalError ≠ PyErr.unknownMethodError :=
  ⟨rfl, by decide⟩

/-- C6 (amended): for every method outside `{suppress, generalize}` the
call produces no result dataset, failing with `UnboundLocalError` (an
accidental programmer-error exception, not a dedicated
`UnknownMethodError`) — and the caller's dataframe has already been
mutated with the `_group_size` column by the time it fails. -/
theorem enforce_k_anonymity_unknown (df : DataFrame) (qis : List String)
    (k : Nat) (method : String) (h1 : method ≠ "suppress")
    (h2 : method ≠ "generalize") :
    (enforce_k_anonymity df qis k method).2 = Except.error PyErr.unboundLocalError
    ∧ (enforce_k_anonymity df qis k method).1 = addGroupSize df qis := by
  constructor
  · show (if method = "suppress" then _ else if method = "generalize" then _
      else Except.error PyErr.unboundLocalError).map (fun d => dropCol d "_group_size")
        = Except.error PyErr.unboundLocalError
    rw [if_neg h1, if_neg h2]
    rfl
  · rfl

/-- C6 witness: the amended theorem applied to a concrete dataset and
the method string `delete`. -/
theorem enforce_k_anonymity_unknown_witness :
    (enforce_k_anonymity sampleOne ["age_group"] 1 "delete").2
        = Except.error PyErr.unboundLocalError
    ∧ (enforce_k_anonymity sampleOne ["age_group"] 1 "delete").1
        = addGroupSize sampleOne ["age_group"] :=
  enforce_k_anonymity_unknown sampleOne ["age_group"] 1 "delete"
    (by decide) (by decide)

/-! ## Claim C10: the `generalize` method rewrites in place, never drops -/

theorem setCell_length (cols : List String) (row : List Val) (c : String)
    (v : Val) : (setCell cols row c v).length = row.length := by
  unfold setCell
  cases h : colIdx cols c
  · rfl
  · simp

/-- C10: with `age_group` among the quasi-identifiers (all of them schema
columns) and no pre-existing `_group_size` column, `generalize`
enforcement returns a dataset with exactly the input's columns and
record count: each record in an undersized (null-free) group has only
its `age_group` value rewritten through the fixed band mapping
(`18-30`/`31-45`/`46-60` to `Adult (18-60)`, anything else to
`Senior (60+)`), every other record is returned unchanged, and no record
is suppressed. -/
theorem enforce_generalize_preserves (df : DataFrame) (qis : List String)
    (k : Nat) (hWF : DFWF df) (hgs : "_group_size" ∉ df.cols)
    (hag : "age_group" ∈ qis) (hcq : ∀ c ∈ qis, c ∈ df.cols) :
    ∃ out, (enforce_k_anonymity df qis k "generalize").2 = Except.ok out
      ∧ out.cols = df.cols
      ∧ out.rows.length = df.rows.length
      ∧ out.rows = df.rows.map fun r =>
          if smallRow df qis k r then
            setCell df.cols r "age_group" (genAge (getCell df.cols r "age_group"))
          else r := by
  refine ⟨{ cols := df.cols
            rows := df.rows.map fun r =>
              if smallRow df qis k r then
                setCell df.cols r "age_group" (genAge (getCell df.cols r "age_group"))
              else r }, ?_, rfl, by simp, rfl⟩
  show ((if ("generalize" : String) = "suppress" then
      if df.rows.length = 0 then Except.error PyErr.zeroDivisionError
      else
        Except.ok { cols := (addGroupSize df qis).cols
                    rows := (addGroupSize df qis).rows.filter fun r =>
                      gsGE (addGroupSize df qis).cols r k }
    else if ("generalize" : String) = "generalize" then
      if "age_group" ∈ qis then
        Except.ok { cols := (addGroupSize df qis).cols
                    rows := (addGroupSize df qis).rows.map fun r =>
                      if gsLT (addGroupSize df qis).cols r k then
                        setCell (addGroupSize df qis).cols r "age_group"
                          (genAge (getCell (addGroupSize df qis).cols r "age_group"))
                      else r }
      else
        Except.ok { cols := (addGroupSize df qis).cols
                    rows := (addGroupSize df qis).rows.filter fun r =>
                      gsGE (addGroupSize df qis).cols r k }
    else Except.error PyErr.unboundLocalError).map fun d => dropCol d "_group_size")
      = _
  rw [if_neg (by decide : ¬ ("generalize" : String) = "suppress"),
    if_pos (rfl : ("generalize" : String) = "generalize"), if_pos hag]
  show Except.ok (dropCol _ "_group_size") = _
  apply congrArg Except.ok
  unfold dropCol
  have hcols : (addGroupSize df qis).cols = df.cols ++ ["_group_size"] := rfl
  have hci : colIdx (addGroupSize df qis).cols "_group_size" = some df.cols.length := by
    rw [hcols]
    exact colIdx_append_self df.cols _ hgs
  rw [hci]
  show DataFrame.mk ((addGroupSize df qis).cols.eraseIdx df.cols.length)
      (((addGroupSize df qis).rows.map fun r =>
          if gsLT (addGroupSize df qis).cols r k then
            setCell (addGroupSize df qis).cols r "age_group"
              (genAge (getCell (addGroupSize df qis).cols r "age_group"))
          else r).map (fun x => x.eraseIdx df.cols.length))
    = _
  have hce : (addGroupSize df qis).cols.eraseIdx df.cols.length = df.cols := by
    rw [hcols]
    exact eraseIdx_append_length df.cols _
  rw [hce]
  have hrows : ((addGroupSize df qis).rows.map fun r =>
        if gsLT (addGroupSize df qis).cols r k then
          setCell (addGroupSize df qis).cols r "age_group"
            (genAge (getCell (addGroupSize df qis).cols r "age_group"))
        else r).map (fun x => x.eraseIdx df.cols.length)
      = df.rows.map fun r =>
          if smallRow df qis k r then
            setCell df.cols r "age_group" (genAge (getCell df.cols r "age_group"))
          else r := by
    have hrw : (addGroupSize df qis).rows
        = df.rows.map fun r => r ++ [gsVal df qis r] := rfl
    rw [hrw, List.map_map, List.map_map]
    apply List.map_congr_left
    intro r hr
    have hlen : r.length = df.cols.length := hWF r hr
    have hgv : getCell (addGroupSize df qis).cols (r ++ [gsVal df qis r])
        "_group_size" = gsVal df qis r := by
      rw [hcols]
      exact getCell_append_last df.cols r _ _ hlen hgs
    have hlt : gsLT (addGroupSize df qis).cols (r ++ [gsVal df qis r]) k
        = smallRow df qis k r := by
      unfold gsLT
      rw [hgv]
      unfold gsVal smallRow
      by_cases hnn : keyNonNull (rowKey df.cols qis r) = true
      · rw [if_pos hnn]
        show decide (keySize df qis (rowKey df.cols qis r) < k)
            = (keyNonNull (rowKey df.cols qis r)
              && decide (keySize df qis (rowKey df.cols qis r) < k))
        rw [hnn, Bool.true_and]
      · rw [if_neg hnn]
        show false
            = (keyNonNull (rowKey df.cols qis r)
              && decide (keySize df qis (rowKey df.cols qis r) < k))
        rw [Bool.not_eq_true] at hnn
        rw [hnn, Bool.false_and]
    have hgc : getCell (addGroupSize df qis).cols (r ++ [gsVal df qis r])
        "age_group" = getCell df.cols r "age_group" := by
      rw [hcols]
      exact getCell_append_of_mem df.cols r _ _ _ hlen (hcq _ hag)
    have hsc : ∀ v, setCell (addGroupSize df qis).cols (r ++ [gsVal df qis r])
        "age_group" v = setCell df.cols r "age_group" v ++ [gsVal df qis r] := by
      intro v
      rw [hcols]
      exact setCell_append df.cols r _ v _ _ hlen (hcq _ hag)
    show (if gsLT (addGroupSize df qis).cols (r ++ [gsVal df qis r]) k then
        setCell (addGroupSize df qis).cols (r ++ [gsVal df qis r]) "age_group"
          (genAge (getCell (addGroupSize df qis).cols (r ++ [gsVal df qis r])
            "age_group"))
      else r ++ [gsVal df qis r]).eraseIdx df.cols.length = _
    rw [hlt, hgc]
    by_cases hs : smallRow df qis k r = true
    · rw [if_pos hs, if_pos hs, hsc]
      have hsl : (setCell df.cols r "age_group"
          (genAge (getCell df.cols r "age_group"))).length = df.cols.length := by
        rw [setCell_length]
        exact hlen
      rw [← hsl]
      exact eraseIdx_append_length _ _
    · rw [if_neg hs, if_neg hs, ← hlen]
      exact eraseIdx_append_length r _
  rw [hrows]

/-- C10 witness: the theorem applied to a concrete four-record dataset
with `k = 2`, where one group is undersized. -/
theorem enforce_generalize_preserves_witness :
    ∃ out, (enforce_k_anonymity sampleFour ["age_group", "gender"] 2
        "generalize").2 = Except.ok out
      ∧ out.cols = sampleFour.cols
      ∧ out.rows.length = sampleFour.rows.length
      ∧ out.rows = sampleFour.rows.map fun r =>
          if smallRow sampleFour ["age_group", "gender"] 2 r then
            setCell sampleFour.cols r "age_group"
              (genAge (getCell sampleFour.cols r "age_group"))
          else r :=
  enforce_generalize_preserves sampleFour ["age_group", "gender"] 2
    (by decide) (by decide) (by decide) (by decide)

/-! ## Claim C5: the privacy-budget ledger -/

/-- C5 counterexample: a negative epsilon is accepted with no
`InvalidBudgetError` of any kind and changes the ledger state — the
entry is appended and the cumulative total decreases to `-1`. -/
theorem track_privacy_budget_negative_cex :
    track_privacy_budget initBudget "q" (-1) ≠ initBudget
    ∧ (track_privacy_budget initBudget "q" (-1)).epsilon = -1
    ∧ (track_privacy_budget initBudget "q" (-1)).queries.length = 1 := by
  refine ⟨?_, ?_, rfl⟩
  · intro h
    have h2 := congrArg (fun b => b.queries.length) h
    simp [track_privacy_budget, initBudget] at h2
  · show initBudget.epsilon + (-1) = -1
    show (0 : ℚ) + (-1) = -1
    norm_num

/-- C5 (amended): `track_privacy_budget` performs no sign check — every
epsilon, negative ones included, is accepted.  Each call appends exactly
one entry whose recorded cumulative total equals the previous cumulative
total plus that call's epsilon (`runningEntries`), and the ledger's
running total equals the starting total plus the sum of all recorded
epsilons. -/
theorem track_privacy_budget_running (b : PrivacyBudget)
    (calls : List (String × ℚ)) :
    (trackAll b calls).epsilon = b.epsilon + (calls.map (·.2)).sum
    ∧ (trackAll b calls).queries = b.queries ++ runningEntries b.epsilon calls := by
  induction calls generalizing b with
  | nil => simp [trackAll, runningEntries]
  | cons c cs ih =>
    have h := ih (track_privacy_budget b c.1 c.2)
    constructor
    · rw [trackAll, h.1]
      show b.epsilon + c.2 + (cs.map (·.2)).sum = b.epsilon + ((c :: cs).map (·.2)).sum
      rw [List.map_cons, List.sum_cons]
      ring
    · rw [trackAll, h.2]
      show (b.queries ++ [⟨c.1, c.2, b.epsilon + c.2⟩])
          ++ runningEntries (b.epsilon + c.2) cs
        = b.queries ++ runningEntries b.epsilon (c :: cs)
      rw [List.append_assoc]
      rfl

/-! ## Claim C4: the distribution-distance computation -/

theorem sum_map_add {M α : Type} [AddCommMonoid M] (l : List α) (f g : α → M) :
    (l.map fun a => f a + g a).sum = (l.map f).sum + (l.map g).sum := by
  induction l with
  | nil => simp
  | cons x xs ih =>
    rw [List.map_cons, List.sum_cons, ih, List.map_cons, List.sum_cons,
      List.map_cons, List.sum_cons, add_add_add_comm]

theorem cget_eq_zero_of_not_mem {α : Type} [DecidableEq α]
    (d : List (α × Nat)) (a : α) (h : a ∉ keysOf d) : cget d a = 0 := by
  induction d with
  | nil => rfl
  | cons p rest ih =>
    have h1 : ¬ p.1 = a := by
      intro hc
      exact h (by rw [keysOf_cons, hc]; exact List.mem_cons_self a _)
    have h2 : a ∉ keysOf rest := by
      intro hc
      exact h (by rw [keysOf_cons]; exact List.mem_cons_of_mem _ hc)
    rw [cget_cons, if_neg h1]
    exact ih h2

theorem sum_ite_zero_of_not_mem {α : Type} [DecidableEq α]
    (K : List α) (a : α) (n : Nat) (h : a ∉ K) :
    (K.map fun x => if a = x then n else 0).sum = 0 := by
  induction K with
  | nil => rfl
  | cons y ys ih =>
    have h1 : ¬ a = y := fun hc => h (by rw [hc]; exact List.mem_cons_self y ys)
    have h2 : a ∉ ys := fun hc => h (List.mem_cons_of_mem y hc)
    rw [List.map_cons, List.sum_cons, if_neg h1, ih h2]

theorem sum_ite_of_mem_nodup {α : Type} [DecidableEq α]
    (K : List α) (a : α) (n : Nat) (hK : K.Nodup) (h : a ∈ K) :
    (K.map fun x => if a = x then n else 0).sum = n := by
  induction K with
  | nil => simp at h
  | cons y ys ih =>
    rcases List.mem_cons.mp h with rfl | h2
    · have hnot : a ∉ ys := (List.nodup_cons.mp hK).1
      rw [List.map_cons, List.sum_cons, if_pos rfl,
        sum_ite_zero_of_not_mem ys a n hnot]
      omega
    · have h1 : ¬ a = y := by
        intro hc
        exact (List.nodup_cons.mp hK).1 (hc ▸ h2)
      rw [List.map_cons, List.sum_cons, if_neg h1,
        ih (List.nodup_cons.mp hK).2 h2]
      omega

theorem sum_cget_eq_ctotal {α : Type} [DecidableEq α]
    (d : List (α × Nat)) (K : List α) (hK : K.Nodup)
    (hd : (keysOf d).Nodup) (hsub : ∀ x ∈ keysOf d, x ∈ K) :
    (K.map fun x => cget d x).sum = ctotal d := by
  induction d with
  | nil =>
    show (K.map fun _ => 0).sum = 0
    simp [ctotal]
  | cons p rest ih =>
    have hd2 : (p.1 :: keysOf rest).Nodup := by
      rw [← keysOf_cons]
      exact hd
    have hpk : p.1 ∉ keysOf rest := (List.nodup_cons.mp hd2).1
    have hrest : (keysOf rest).Nodup := (List.nodup_cons.mp hd2).2
    have hsub2 : ∀ x ∈ keysOf rest, x ∈ K := by
      intro x hx
      exact hsub x (by rw [keysOf_cons]; exact List.mem_cons_of_mem _ hx)
    have hmemK : p.1 ∈ K :=
      hsub p.1 (by rw [keysOf_cons]; exact List.mem_cons_self _ _)
    have hpt : ∀ x ∈ K,
        cget (p :: rest) x = cget rest x + (if p.1 = x then p.2 else 0) := by
      intro x _
      by_cases hx : p.1 = x
      · rw [cget_cons, if_pos hx, if_pos hx, ← hx,
          cget_eq_zero_of_not_mem rest p.1 hpk]
        omega
      · rw [cget_cons, if_neg hx, if_neg hx]
        omega
    rw [List.map_congr_left hpt, sum_map_add, ih hrest hsub2,
      sum_ite_of_mem_nodup K p.1 p.2 hK hmemK, ctotal_cons]
    omega

theorem sum_map_div {α : Type} (l : List α) (f : α → ℚ) (t : ℚ) :
    (l.map fun a => f a / t).sum = (l.map f).sum / t := by
  induction l with
  | nil => simp
  | cons x xs ih =>
    rw [List.map_cons, List.sum_cons, ih, List.map_cons, List.sum_cons, add_div]

theorem sum_map_cast {α : Type} (l : List α) (f : α → Nat) :
    (l.map fun a => (f a : ℚ)).sum = ((l.map f).sum : ℚ) := by
  induction l with
  | nil => simp
  | cons x xs ih =>
    rw [List.map_cons, List.sum_cons, ih, List.map_cons, List.sum_cons]
    push_cast
    ring

/-- C4 counterexample: when both counters are empty the computation
returns `0` without failing at all (the loop body never runs), and when
only one total is `0` it fails with a plain `ZeroDivisionError` — in
neither case is an `EmptyDistributionError` raised. -/
theorem calculate_emd_zero_total_cex :
    calculate_earth_movers_distance [] [] = Except.ok 0
    ∧ calculate_earth_movers_distance [] [(Val.vStr "a", 1)]
        = Except.error PyErr.zeroDivisionError
    ∧ PyErr.zeroDivisionError ≠ PyErr.emptyDistributionError :=
  ⟨rfl, rfl, by decide⟩

/-- C4 (amended): the division by the totals is not guarded — a pair of
counters with an observed value and a zero total raises
`ZeroDivisionError`, and two empty counters return `0` — while for every
pair of frequency counters (unique keys, as for a Python `Counter`) with
both totals positive the call returns half the sum, over the union of
observed values, of the absolute differences of relative frequencies: a
value in `[0, 1]`. -/
theorem calculate_emd_ok (d1 d2 : List (Val × Nat))
    (hn1 : (keysOf d1).Nodup) (hn2 : (keysOf d2).Nodup)
    (h1 : 0 < ctotal d1) (h2 : 0 < ctotal d2) :
    calculate_earth_movers_distance d1 d2 = Except.ok (emdVal d1 d2)
    ∧ 0 ≤ emdVal d1 d2 ∧ emdVal d1 d2 ≤ 1 := by
  have hne : (keysOf d1 ++ keysOf d2).dedup ≠ [] := by
    intro hc
    rw [List.dedup_eq_nil] at hc
    have hk1 : keysOf d1 = [] := by
      cases h : keysOf d1 ++ keysOf d2 with
      | nil => exact List.append_eq_nil.mp h |>.1
      | cons a rest => rw [h] at hc; simp at hc
    have hd1 : d1 = [] := by
      cases d1 with
      | nil => rfl
      | cons p r => simp [keysOf] at hk1
    rw [hd1] at h1
    simp [ctotal] at h1
  refine ⟨?_, ?_, ?_⟩
  · unfold calculate_earth_movers_distance
    rw [if_neg hne, if_neg (by omega : ¬ (ctotal d1 = 0 ∨ ctotal d2 = 0))]
  · unfold emdVal
    apply div_nonneg ?_ (by norm_num)
    apply List.sum_nonneg
    intro x hx
    rcases List.mem_map.mp hx with ⟨key, _, rfl⟩
    exact abs_nonneg _
  · unfold emdVal
    rw [div_le_one (by norm_num : (0:ℚ) < 2)]
    have hKn : ((keysOf d1 ++ keysOf d2).dedup).Nodup := List.nodup_dedup _
    have hsub1 : ∀ x ∈ keysOf d1, x ∈ (keysOf d1 ++ keysOf d2).dedup := fun x hx =>
      List.mem_dedup.mpr (List.mem_append.mpr (Or.inl hx))
    have hsub2 : ∀ x ∈ keysOf d2, x ∈ (keysOf d1 ++ keysOf d2).dedup := fun x hx =>
      List.mem_dedup.mpr (List.mem_append.mpr (Or.inr hx))
    have ht1 : (0:ℚ) < (ctotal d1 : ℚ) := by exact_mod_cast h1
    have ht2 : (0:ℚ) < (ctotal d2 : ℚ) := by exact_mod_cast h2
    have hb : ∀ key ∈ (keysOf d1 ++ keysOf d2).dedup,
        |(cget d1 key : ℚ) / (ctotal d1 : ℚ) - (cget d2 key : ℚ) / (ctotal d2 : ℚ)|
          ≤ (cget d1 key : ℚ) / (ctotal d1 : ℚ)
            + (cget d2 key : ℚ) / (ctotal d2 : ℚ) := by
      intro key _
      have p1 : (0:ℚ) ≤ (cget d1 key : ℚ) / (ctotal d1 : ℚ) :=
        div_nonneg (Nat.cast_nonneg _) (le_of_lt ht1)
      have p2 : (0:ℚ) ≤ (cget d2 key : ℚ) / (ctotal d2 : ℚ) :=
        div_nonneg (Nat.cast_nonneg _) (le_of_lt ht2)
      apply abs_le.mpr
      constructor
      · linarith
      · linarith
    have hchain := List.sum_le_sum hb
    have hsplit : ((keysOf d1 ++ keysOf d2).dedup.map fun key =>
        (cget d1 key : ℚ) / (ctotal d1 : ℚ)
          + (cget d2 key : ℚ) / (ctotal d2 : ℚ)).sum
        = ((keysOf d1 ++ keysOf d2).dedup.map fun key => (cget d1 key : ℚ)).sum
            / (ctotal d1 : ℚ)
          + ((keysOf d1 ++ keysOf d2).dedup.map fun key => (cget d2 key : ℚ)).sum
            / (ctotal d2 : ℚ) := by
      rw [sum_map_add ((keysOf d1 ++ keysOf d2).dedup)
          (fun key => (cget d1 key : ℚ) / (ctotal d1 : ℚ))
          (fun key => (cget d2 key : ℚ) / (ctotal d2 : ℚ)),
        sum_map_div, sum_map_div]
    have hc1 : ((keysOf d1 ++ keysOf d2).dedup.map fun key => (cget d1 key : ℚ)).sum
        = (ctotal d1 : ℚ) := by
      rw [sum_map_cast ((keysOf d1 ++ keysOf d2).dedup) (cget d1),
        sum_cget_eq_ctotal d1 _ hKn hn1 hsub1]
    have hc2 : ((keysOf d1 ++ keysOf d2).dedup.map fun key => (cget d2 key : ℚ)).sum
        = (ctotal d2 : ℚ) := by
      rw [sum_map_cast ((keysOf d1 ++ keysOf d2).dedup) (cget d2),
        sum_cget_eq_ctotal d2 _ hKn hn2 hsub2]
    rw [hsplit, hc1, hc2, div_self (ne_of_gt ht1), div_self (ne_of_gt ht2)] at hchain
    linarith

/-- C4 witness: the amended theorem applied to two concrete counters. -/
theorem calculate_emd_ok_witness :
    calculate_earth_movers_distance [(Val.vStr "a", 2)]
        [(Val.vStr "a", 1), (Val.vStr "b", 1)]
      = Except.ok (emdVal [(Val.vStr "a", 2)] [(Val.vStr "a", 1), (Val.vStr "b", 1)])
    ∧ 0 ≤ emdVal [(Val.vStr "a", 2)] [(Val.vStr "a", 1), (Val.vStr "b", 1)]
    ∧ emdVal [(Val.vStr "a", 2)] [(Val.vStr "a", 1), (Val.vStr "b", 1)] ≤ 1 :=
  calculate_emd_ok [(Val.vStr "a", 2)] [(Val.vStr "a", 1), (Val.vStr "b", 1)]
    (by decide) (by decide) (by decide) (by decide)

/-! ## Claim C8: t-closeness flags and the retained violations -/

theorem tAccum_eq (df : DataFrame) (qis : List String) (sattr : String)
    (t : ℚ) (overall : List (Val × Nat)) :
    ∀ (keys : List (List Val)) (vs : List TViolation) (ds : List ℚ),
      tAccum df qis sattr t overall keys vs ds
        = (vs ++ (keys.filter fun key =>
              decide (t < emdVal (counterOf ((groupRows df qis key).map fun r =>
                getCell df.cols r sattr)) overall)).map
              (fun key =>
                { group := key
                  distance := emdVal (counterOf ((groupRows df qis key).map fun r =>
                    getCell df.cols r sattr)) overall
                  size := (groupRows df qis key).length }),
           ds ++ keys.map fun key =>
             emdVal (counterOf ((groupRows df qis key).map fun r =>
               getCell df.cols r sattr)) overall) := by
  intro keys
  induction keys with
  | nil => intro vs ds; simp [tAccum]
  | cons key rest ih =>
    intro vs ds
    rw [tAccum, ih]
    by_cases h : t < emdVal (counterOf ((groupRows df qis key).map fun r =>
        getCell df.cols r sattr)) overall
    · rw [if_pos h, List.filter_cons_of_pos (by simpa using h), List.map_cons,
        List.map_cons, List.append_assoc, List.append_assoc]
      rfl
    · rw [if_neg h, List.filter_cons_of_neg (by simpa using h), List.map_cons,
        List.append_assoc]
      rfl

/-- C8: `check_t_closeness` flags a group as violating exactly when its
distance to the overall distribution is strictly greater than `t`
(distance equal to `t` passes), counts every violating group, and
returns as `violations` the first at-most-ten violating groups in
group-iteration order — a truncation of the full iteration-ordered list,
never a distance-sorted selection. -/
theorem check_t_closeness_violations (df : DataFrame) (qis : List String)
    (sattr : String) (t : ℚ) :
    (check_t_closeness df qis sattr t).violations = (tViolAll df qis sattr t).take 10
    ∧ (check_t_closeness df qis sattr t).violating_groups
        = (tViolAll df qis sattr t).length
    ∧ ((check_t_closeness df qis sattr t).satisfies_t_closeness = true ↔
        ∀ key ∈ (grouped df qis).map (·.1), tDist df qis sattr key ≤ t) := by
  have hacc := tAccum_eq df qis sattr t
    (counterOf (df.rows.map fun r => getCell df.cols r sattr))
    ((grouped df qis).map (·.1)) [] []
  refine ⟨?_, ?_, ?_⟩
  · show ((tAccum df qis sattr t
        (counterOf (df.rows.map fun r => getCell df.cols r sattr))
        ((grouped df qis).map (·.1)) [] []).1).take 10
      = (tViolAll df qis sattr t).take 10
    rw [hacc]
    rfl
  · show ((tAccum df qis sattr t
        (counterOf (df.rows.map fun r => getCell df.cols r sattr))
        ((grouped df qis).map (·.1)) [] []).1).length
      = (tViolAll df qis sattr t).length
    rw [hacc]
    rfl
  · show decide (((tAccum df qis sattr t
        (counterOf (df.rows.map fun r => getCell df.cols r sattr))
        ((grouped df qis).map (·.1)) [] []).1).length = 0) = true
      ↔ ∀ key ∈ (grouped df qis).map (·.1), tDist df qis sattr key ≤ t
    rw [hacc]
    show decide ((tViolAll df qis sattr t).length = 0) = true ↔ _
    rw [decide_eq_true_eq, List.length_eq_zero]
    unfold tViolAll
    rw [List.map_eq_nil_iff, List.filter_eq_nil_iff]
    constructor
    · intro h key hk
      have := h key hk
      simp only [decide_eq_true_eq] at this
      exact le_of_not_lt this
    · intro h key hk
      simp only [decide_eq_true_eq]
      exact not_lt_of_le (h key hk)

/-! ## Claim C9: the overall privacy score -/

theorem sum_if_bool (bs : List Bool) (c : ℚ) :
    ((bs.map fun b => if b then c else 0)).sum
      = c * (((bs.filter fun b => b).length : ℚ)) := by
  induction bs with
  | nil => simp
  | cons b rest ih =>
    cases b
    · rw [List.map_cons, List.sum_cons, List.filter_cons]
      simp only [if_false, Bool.false_eq_true, cond_false]
      rw [ih]
      simp
    · rw [List.map_cons, List.sum_cons, List.filter_cons]
      simp only [if_true, cond_true]
      rw [ih, List.length_cons]
      push_cast
      ring

theorem filter_true_length_eq_iff (bs : List Bool) :
    ((bs.filter fun b => b).length = bs.length) ↔ ∀ b ∈ bs, b = true := by
  induction bs with
  | nil => simp
  | cons b rest ih =>
    cases b
    · simp only [List.filter_cons, Bool.false_eq_true, if_false, List.length_cons]
      constructor
      · intro h
        have := List.length_filter_le (fun b => b) rest
        omega
      · intro h
        have : (false : Bool) = true := h false (List.mem_cons_self _ _)
        simp at this
    · simp only [List.filter_cons, if_true, List.length_cons]
      constructor
      · intro h
        intro b hb
        rcases List.mem_cons.mp hb with rfl | hb2
        · rfl
        · exact ih.mp (by omega) b hb2
      · intro h
        have := ih.mpr fun b hb => h b (List.mem_cons_of_mem _ hb)
        omega

theorem filter_true_length_zero_iff (bs : List Bool) :
    ((bs.filter fun b => b).length = 0) ↔ ∀ b ∈ bs, b = false := by
  rw [List.length_eq_zero, List.filter_eq_nil_iff]
  constructor
  · intro h b hb
    have := h b hb
    simpa using this
  · intro h b hb
    rw [h b hb]
    simp

theorem flatMap_pair_length {α β : Type} (l : List α) (f g : α → β) :
    (l.flatMap fun a => [f a, g a]).length = 2 * l.length := by
  induction l with
  | nil => rfl
  | cons x xs ih =>
    rw [List.flatMap_cons, List.length_append, ih, List.length_cons]
    show 2 + 2 * xs.length = 2 * (xs.length + 1)
    ring

theorem auditChecks_length (df : DataFrame) (qis : List String)
    (sattrs : List String) (k l : Nat) (t : ℚ) :
    (auditChecks df qis sattrs k l t).length = 1 + 2 * sattrs.length := by
  unfold auditChecks
  rw [List.length_cons, flatMap_pair_length]
  omega

/-- C9: the overall privacy score is the arithmetic mean of the
`n = 1 + 2·m` indicator scores (100 for a passing check, 0 for a failing
one) over the k-anonymity check and the l-diversity and t-closeness
checks of each of the `m` sensitive attributes; it is `100` iff all
checks pass, `0` iff all fail, and always equals `100·i/n` for the
number `i ≤ n` of passing checks. -/
theorem comprehensive_audit_score (df : DataFrame) (qis : List String)
    (sattrs : List String) (k l : Nat) (t : ℚ) :
    (comprehensive_privacy_audit df qis sattrs k l t).overall_privacy_score
        = 100 * ((((auditChecks df qis sattrs k l t).filter fun b => b).length : ℚ))
            / (((auditChecks df qis sattrs k l t).length : ℚ))
    ∧ (auditChecks df qis sattrs k l t).length = 1 + 2 * sattrs.length
    ∧ ((comprehensive_privacy_audit df qis sattrs k l t).overall_privacy_score = 100
        ↔ ∀ b ∈ auditChecks df qis sattrs k l t, b = true)
    ∧ ((comprehensive_privacy_audit df qis sattrs k l t).overall_privacy_score = 0
        ↔ ∀ b ∈ auditChecks df qis sattrs k l t, b = false)
    ∧ ∃ i ≤ 1 + 2 * sattrs.length,
        (comprehensive_privacy_audit df qis sattrs k l t).overall_privacy_score
          = 100 * (i : ℚ) / ((1 + 2 * sattrs.length : Nat) : ℚ) := by
  have hlen : (auditChecks df qis sattrs k l t).length = 1 + 2 * sattrs.length :=
    auditChecks_length df qis sattrs k l t
  have hmean : (comprehensive_privacy_audit df qis sattrs k l t).overall_privacy_score
      = 100 * ((((auditChecks df qis sattrs k l t).filter fun b => b).length : ℚ))
          / (((auditChecks df qis sattrs k l t).length : ℚ)) := by
    show (((auditChecks df qis sattrs k l t).map fun b =>
        if b then (100:ℚ) else 0).sum)
        / ((((auditChecks df qis sattrs k l t).map fun b =>
          if b then (100:ℚ) else 0).length : ℚ)) = _
    rw [List.length_map, sum_if_bool]
  have hple : ((auditChecks df qis sattrs k l t).filter fun b => b).length
      ≤ (auditChecks df qis sattrs k l t).length :=
    List.length_filter_le _ _
  have hn : 0 < (auditChecks df qis sattrs k l t).length := by omega
  have hnQ : (((auditChecks df qis sattrs k l t).length : ℚ)) ≠ 0 := by
    exact_mod_cast Nat.pos_iff_ne_zero.mp hn
  have heq100 : (comprehensive_privacy_audit df qis sattrs k l t).overall_privacy_score
      = 100
      ↔ ((auditChecks df qis sattrs k l t).filter fun b => b).length
        = (auditChecks df qis sattrs k l t).length := by
    rw [hmean, div_eq_iff hnQ]
    constructor
    · intro h
      have h2 := mul_left_cancel₀ (by norm_num : (100:ℚ) ≠ 0) h
      exact_mod_cast h2
    · intro h
      rw [h]
  have heq0 : (comprehensive_privacy_audit df qis sattrs k l t).overall_privacy_score
      = 0
      ↔ ((auditChecks df qis sattrs k l t).filter fun b => b).length = 0 := by
    rw [hmean, div_eq_iff hnQ, zero_mul]
    constructor
    · intro h
      have h2 : ((((auditChecks df qis sattrs k l t).filter fun b => b).length : ℚ)) = 0 := by
        have := mul_eq_zero.mp h
        rcases this with h3 | h3
        · norm_num at h3
        · exact h3
      exact_mod_cast h2
    · intro h
      rw [h]
      norm_num
  refine ⟨hmean, hlen, ?_, ?_, ?_⟩
  · rw [heq100, filter_true_length_eq_iff]
  · rw [heq0, filter_true_length_zero_iff]
  · refine ⟨((auditChecks df qis sattrs k l t).filter fun b => b).length,
      by omega, ?_⟩
    rw [hmean, hlen]
